import Mathlib

/-!
Shallow embedding of `src/models/app.py` (ReClaim-AI detection service).

The external YOLO model is opaque: its output for a frame is modelled as a list
of `Candidate` records (class id, unrounded confidence, raw box coordinates),
and its label table as a function `names : Nat → String`.  Image decoding is
abstracted by a `decodesOk` flag plus the decoded frame's height and width.
Confidences are rationals; box coordinates are integers (the code applies
`map(int, box.xyxy[0])` before any use).
-/

/- Rat arithmetic is `@[irreducible]` upstream; concrete witness evaluation
by `decide` needs it unfolded in this file. -/
attribute [local semireducible] Rat.mul Rat.inv Rat.add Rat.sub Rat.ofScientific

deriving instance DecidableEq for Except

namespace ReclaimAI

/-! ### Strings: Python `.lower()` and the substring operator `in` -/

/-- Python `s.lower()` (class names are ASCII, so per-character lowering). -/
def strLower (s : String) : String :=
  ⟨s.data.map Char.toLower⟩

def strStartsWithL : List Char → List Char → Bool
  | [], _ => true
  | _ :: _, [] => false
  | c :: cs, d :: ds => c == d && strStartsWithL cs ds

/-- Python `needle in hay` on strings: contiguous substring test
(`"" in s` is `True`). -/
def strContainsL (needle : List Char) : List Char → Bool
  | [] => needle.isEmpty
  | d :: ds => strStartsWithL needle (d :: ds) || strContainsL needle ds

def strContains (needle hay : String) : Bool :=
  strContainsL needle.data hay.data

/-- Specification-side characterisation of "contiguous substring". -/
def IsSubstr (needle hay : String) : Prop :=
  ∃ p s, hay.data = p ++ needle.data ++ s

/-! ### Python `round(x, 2)`: round half to even at two decimal places -/

/-- Round half to even to an integer (Python `round`'s tie-breaking rule). -/
def rhe (q : ℚ) : ℤ :=
  let f := ⌊q⌋
  if q - f < 1/2 then f
  else if 1/2 < q - f then f + 1
  else if 2 ∣ f then f else f + 1

/-- Python `round(q, 2)`. -/
def round2 (q : ℚ) : ℚ :=
  (rhe (q * 100) : ℚ) / 100

/-! ### Candidates, clamping, cropping -/

/-- One raw detection from the model: class id, unrounded confidence, and the
box corners after `map(int, box.xyxy[0])`.  The box is not guaranteed to lie
inside the image. -/
structure Candidate where
  clsId : Nat
  conf : ℚ
  x1 : ℤ
  y1 : ℤ
  x2 : ℤ
  y2 : ℤ
deriving DecidableEq

/-- Lines 72-73 / 137-138: `x1, y1 = max(0, x1), max(0, y1)` and
`x2, y2 = min(w, x2), min(h, y2)`. -/
def clampBox (w h : ℕ) (x1 y1 x2 y2 : ℤ) : ℤ × ℤ × ℤ × ℤ :=
  (max 0 x1, max 0 y1, min (w : ℤ) x2, min (h : ℤ) y2)

/-- Number of elements selected by the Python slice `a[start:stop]` on a
sequence of length `n` (step 1; negative bounds count from the end). -/
def pySliceLen (n : ℕ) (start stop : ℤ) : ℕ :=
  let s : ℤ := if start < 0 then max 0 ((n : ℤ) + start) else min start (n : ℤ)
  let e : ℤ := if stop < 0 then max 0 ((n : ℤ) + stop) else min stop (n : ℤ)
  (max 0 (e - s)).toNat

/-- `frame[y1:y2, x1:x2].size` for a 3-channel image of shape `(h, w, 3)`. -/
def cropSize (h w : ℕ) (x1 y1 x2 y2 : ℤ) : ℕ :=
  pySliceLen h y1 y2 * pySliceLen w x1 x2 * 3

/-- One entry of the `detections` JSON array (lines 78-83 / 143-148).  The
encoded bytes of `croppedImage` are abstracted; only presence (`some ()`)
versus `null` (`none`) is modelled. -/
structure DetectionResult where
  className : String
  confidence : ℚ
  bbox : ℤ × ℤ × ℤ × ℤ
  croppedImage : Option Unit
deriving DecidableEq

/-- Lines 70-83 (and identically 135-148): clamp the box, crop, and build the
detection record for one retained candidate. -/
def mkDetection (names : Nat → String) (h w : ℕ) (c : Candidate) : DetectionResult :=
  let b := clampBox w h c.x1 c.y1 c.x2 c.y2
  { className := names c.clsId
    confidence := round2 c.conf
    bbox := b
    croppedImage :=
      if 0 < cropSize h w b.1 b.2.1 b.2.2.1 b.2.2.2 then some () else none }

/-! ### The `/detect` endpoint -/

/-- Lines 65-68: a candidate survives the `/detect` filters iff it passes the
exact class-membership filter and `confidence < 0.3` does not hold. -/
def detectKeep (targetClasses : List String) (names : Nat → String)
    (c : Candidate) : Bool :=
  !((!targetClasses.isEmpty) && !(targetClasses.contains (names c.clsId))) &&
    !(decide (c.conf < 3/10))

/-- Lines 59-83: the `detections` list built by the `/detect` loop
(append-in-a-loop with `continue` equals filter-then-map). -/
def detectDetections (names : Nat → String) (targetClasses : List String)
    (h w : ℕ) (cands : List Candidate) : List DetectionResult :=
  (cands.filter (detectKeep targetClasses names)).map (mkDetection names h w)

structure DetectInput where
  hasImage : Bool
  decodesOk : Bool
  height : ℕ
  width : ℕ
  dets : List Candidate
  targetClasses : List String
deriving DecidableEq

structure DetectResponse where
  detections : List DetectionResult
  count : ℕ
deriving DecidableEq

/-- Lines 37-85: the `/detect` handler (model assumed loaded; the raw model
output for the decoded frame is `input.dets`). -/
def detect (names : Nat → String) (input : DetectInput) : Except String DetectResponse :=
  if !input.hasImage then .error "No image provided"
  else if !input.decodesOk then .error "Invalid image data"
  else
    let ds := detectDetections names input.targetClasses input.height input.width input.dets
    .ok { detections := ds, count := ds.length }

/-! ### The `/analyze-video` endpoint -/

/-- Line 130: `if target_class and target_class not in class_name and
class_name not in target_class: continue` — the skip condition on the
(lowercased) class name. -/
def skipByClass (target cls : String) : Bool :=
  (!target.isEmpty) && !(strContains target cls) && !(strContains cls target)

/-- Lines 130-133: a candidate is kept by the video loop iff it is not skipped
by the class match and not skipped by the confidence threshold. -/
def videoQualifies (names : Nat → String) (target : String) (c : Candidate) : Bool :=
  !(skipByClass target (strLower (names c.clsId))) && !(decide (c.conf < 3/10))

/-- One element of the request's `frames` array together with the abstracted
decode result and model output for that frame. -/
structure FrameData where
  image : String
  timestamp : ℚ
  decodesOk : Bool
  height : ℕ
  width : ℕ
  dets : List Candidate
deriving DecidableEq

/-- One entry of the `keyframes` JSON array (lines 155-160). -/
structure Keyframe where
  timestamp : ℚ
  frameImage : String
  confidence : ℚ
  detections : List DetectionResult
deriving DecidableEq

/-- Lines 122, 150-151: `best_confidence` starts at `0` and is raised to each
kept candidate's confidence when larger. -/
def bestConf (l : List Candidate) : ℚ :=
  l.foldl (fun b c => max b c.conf) 0

/-- Lines 124-148: the `frame_detections` list built for one frame. -/
def frameDets (names : Nat → String) (target : String) (f : FrameData) :
    List DetectionResult :=
  (f.dets.filter (videoQualifies names target)).map
    (mkDetection names f.height f.width)

/-- Lines 110-160: the body of the per-frame loop, threading the
`all_confidences` and `keyframes` accumulators. -/
def processFrame (names : Nat → String) (target : String)
    (st : List ℚ × List Keyframe) (f : FrameData) : List ℚ × List Keyframe :=
  if f.image.isEmpty then st
  else if !f.decodesOk then st
  else
    let quals := f.dets.filter (videoQualifies names target)
    if quals.isEmpty then st
    else
      let best := bestConf quals
      (st.1 ++ [best],
       st.2 ++ [{ timestamp := round2 f.timestamp
                  frameImage := f.image
                  confidence := round2 best
                  detections := quals.map (mkDetection names f.height f.width) }])

/-- The comparison used by line 164's
`keyframes.sort(key=lambda x: x['confidence'], reverse=True)`. -/
def kfGE (a b : Keyframe) : Prop :=
  b.confidence ≤ a.confidence

instance : DecidableRel kfGE :=
  fun a b => inferInstanceAs (Decidable (b.confidence ≤ a.confidence))

instance : IsTotal Keyframe kfGE :=
  ⟨fun a b => le_total b.confidence a.confidence⟩

instance : IsTrans Keyframe kfGE :=
  ⟨fun _ _ _ h1 h2 => le_trans h2 h1⟩

structure AnalyzeInput where
  frames : List FrameData
  targetClass : String
  itemName : String
  itemDescription : String
deriving DecidableEq

structure AnalyzeResponse where
  keyframes : List Keyframe
  totalFramesAnalyzed : ℕ
  framesWithTarget : ℕ
  averageConfidence : ℚ
  maxConfidence : ℚ
  targetClass : String
  itemName : String
  itemDescription : String
deriving DecidableEq

/-- Line 162: `sum(all_confidences) / len(all_confidences) if all_confidences
else 0`. -/
def avgOf (l : List ℚ) : ℚ :=
  if l.isEmpty then 0 else l.sum / (l.length : ℚ)

/-- Line 163: `max(all_confidences) if all_confidences else 0`. -/
def maxOf (l : List ℚ) : ℚ :=
  match l with
  | [] => 0
  | a :: t => t.foldl max a

/-- Lines 91-179: the `/analyze-video` handler (model assumed loaded).
Python's `list.sort` is stable, and insertion sort with `kfGE` computes
exactly the stable descending reordering, so line 164 is modelled by
`List.insertionSort kfGE`. -/
def analyze_video (names : Nat → String) (inp : AnalyzeInput) :
    Except String AnalyzeResponse :=
  let target := strLower inp.targetClass
  if inp.frames.isEmpty then .error "No frames provided"
  else
    let st := inp.frames.foldl (processFrame names target) ([], [])
    let kfs := (List.insertionSort kfGE st.2).take 10
    .ok { keyframes := kfs
          totalFramesAnalyzed := inp.frames.length
          framesWithTarget := kfs.length
          averageConfidence := round2 (avgOf st.1)
          maxConfidence := round2 (maxOf st.1)
          targetClass := target
          itemName := inp.itemName
          itemDescription := inp.itemDescription }

/-! ### Declarative characterisations of the per-frame loop -/

/-- A frame reaches the detection stage iff its image field is non-empty and
it decodes (lines 113-118). -/
def isProcessed (f : FrameData) : Bool :=
  !f.image.isEmpty && f.decodesOk

/-- The candidates of `f` kept by the video filters. -/
def qualDets (names : Nat → String) (target : String) (f : FrameData) :
    List Candidate :=
  f.dets.filter (videoQualifies names target)

/-- Frames that are processed and contribute a keyframe. -/
def retainedFrames (names : Nat → String) (target : String)
    (frames : List FrameData) : List FrameData :=
  frames.filter (fun f => isProcessed f && !(qualDets names target f).isEmpty)

/-- The `all_confidences` list: unrounded best confidence of every retained
frame, in input order. -/
def allConfsOf (names : Nat → String) (target : String)
    (frames : List FrameData) : List ℚ :=
  (retainedFrames names target frames).map (fun f => bestConf (qualDets names target f))

/-- The keyframe record of one retained frame. -/
def keyframeOf (names : Nat → String) (target : String) (f : FrameData) : Keyframe :=
  { timestamp := round2 f.timestamp
    frameImage := f.image
    confidence := round2 (bestConf (qualDets names target f))
    detections := (qualDets names target f).map (mkDetection names f.height f.width) }

/-- The `keyframes` list as it stands before sorting and truncation: one
keyframe per retained frame, in input order. -/
def preKeyframes (names : Nat → String) (target : String)
    (frames : List FrameData) : List Keyframe :=
  (retainedFrames names target frames).map (keyframeOf names target)


/-! ### Lemmas about the per-frame loop -/

theorem processFrame_eq (names : Nat → String) (target : String)
    (st : List ℚ × List Keyframe) (f : FrameData) :
    processFrame names target st f =
      if isProcessed f && !(qualDets names target f).isEmpty
      then (st.1 ++ [bestConf (qualDets names target f)],
            st.2 ++ [keyframeOf names target f])
      else st := by
  unfold processFrame isProcessed qualDets keyframeOf
  by_cases h1 : f.image.isEmpty <;> by_cases h2 : f.decodesOk <;>
    by_cases h3 : (f.dets.filter (videoQualifies names target)).isEmpty <;>
    simp [h1, h2, h3, bestConf, qualDets]

theorem foldl_processFrame (names : Nat → String) (target : String)
    (frames : List FrameData) (cs : List ℚ) (ks : List Keyframe) :
    frames.foldl (processFrame names target) (cs, ks) =
      (cs ++ allConfsOf names target frames,
       ks ++ preKeyframes names target frames) := by
  induction frames generalizing cs ks with
  | nil => simp [allConfsOf, preKeyframes, retainedFrames]
  | cons f fs ih =>
    rw [List.foldl_cons, processFrame_eq]
    by_cases h : (isProcessed f && !(qualDets names target f).isEmpty) = true
    · rw [if_pos h, ih]
      simp [allConfsOf, preKeyframes, retainedFrames, List.filter_cons, h]
    · rw [if_neg h, ih]
      simp only [Bool.not_eq_true] at h
      simp [allConfsOf, preKeyframes, retainedFrames, List.filter_cons, h]

/-- Closed form of a successful `/analyze-video` call. -/
theorem analyze_video_eq (names : Nat → String) (inp : AnalyzeInput)
    (h : inp.frames ≠ []) :
    analyze_video names inp = .ok
      { keyframes := (List.insertionSort kfGE
            (preKeyframes names (strLower inp.targetClass) inp.frames)).take 10
        totalFramesAnalyzed := inp.frames.length
        framesWithTarget := ((List.insertionSort kfGE
            (preKeyframes names (strLower inp.targetClass) inp.frames)).take 10).length
        averageConfidence := round2 (avgOf (allConfsOf names (strLower inp.targetClass) inp.frames))
        maxConfidence := round2 (maxOf (allConfsOf names (strLower inp.targetClass) inp.frames))
        targetClass := strLower inp.targetClass
        itemName := inp.itemName
        itemDescription := inp.itemDescription } := by
  unfold analyze_video
  rw [if_neg (by simpa using h)]
  rw [foldl_processFrame]
  simp

theorem analyze_video_empty (names : Nat → String) (inp : AnalyzeInput)
    (h : inp.frames = []) :
    analyze_video names inp = .error "No frames provided" := by
  unfold analyze_video
  rw [if_pos (by simp [h])]


/-! ### The sort of line 164: order and stability -/

theorem filter_orderedInsert (c : ℚ) (a : Keyframe) (l : List Keyframe) :
    (List.orderedInsert kfGE a l).filter (fun k => k.confidence == c) =
      if a.confidence = c
      then a :: l.filter (fun k => k.confidence == c)
      else l.filter (fun k => k.confidence == c) := by
  induction l with
  | nil =>
    by_cases hac : a.confidence = c <;>
      simp [List.orderedInsert, List.filter_cons, hac]
  | cons b t ih =>
    rw [List.orderedInsert]
    by_cases hab : kfGE a b
    · rw [if_pos hab]
      by_cases hac : a.confidence = c <;> simp [List.filter_cons, hac]
    · rw [if_neg hab]
      simp only [kfGE, not_le] at hab
      rw [List.filter_cons, ih]
      by_cases hac : a.confidence = c
      · have hbc : (b.confidence == c) = false := by
          rw [beq_eq_false_iff_ne]
          intro hbc
          rw [hbc, ← hac] at hab
          exact lt_irrefl _ hab
        simp [hac, hbc, List.filter_cons]
      · simp [hac, List.filter_cons]

/-- Python `list.sort` is stable: the subsequence of keyframes sharing any
given confidence value is unchanged by the sort. -/
theorem filter_insertionSort (c : ℚ) (l : List Keyframe) :
    (List.insertionSort kfGE l).filter (fun k => k.confidence == c) =
      l.filter (fun k => k.confidence == c) := by
  induction l with
  | nil => rfl
  | cons a t ih =>
    rw [List.insertionSort, filter_orderedInsert, ih]
    by_cases hac : a.confidence = c <;> simp [hac, List.filter_cons]

/-! ### Facts about `maxOf` and `avgOf` -/

theorem foldl_max_le_init (t : List ℚ) (a : ℚ) : a ≤ t.foldl max a := by
  induction t generalizing a with
  | nil => exact le_refl a
  | cons b s ih => exact le_trans (le_max_left a b) (ih (max a b))

theorem mem_le_foldl_max (t : List ℚ) (a x : ℚ) (hx : x ∈ t) :
    x ≤ t.foldl max a := by
  induction t generalizing a with
  | nil => cases hx
  | cons b s ih =>
    rcases List.mem_cons.mp hx with rfl | hx
    · exact le_trans (le_max_right a x) (foldl_max_le_init s _)
    · exact ih _ hx

theorem foldl_max_mem (t : List ℚ) (a : ℚ) : t.foldl max a ∈ a :: t := by
  induction t generalizing a with
  | nil => simp
  | cons b s ih =>
    rcases List.mem_cons.mp (ih (max a b)) with h | h
    · rw [List.foldl_cons, h]
      rcases max_choice a b with hm | hm <;> simp [hm]
    · simp only [List.foldl_cons, List.mem_cons]
      right; right
      exact h

theorem le_maxOf (l : List ℚ) (x : ℚ) (hx : x ∈ l) : x ≤ maxOf l := by
  cases l with
  | nil => cases hx
  | cons a t =>
    rcases List.mem_cons.mp hx with rfl | hx
    · exact foldl_max_le_init t x
    · exact mem_le_foldl_max t a x hx

theorem maxOf_mem (l : List ℚ) (h : l ≠ []) : maxOf l ∈ l := by
  cases l with
  | nil => exact absurd rfl h
  | cons a t => exact foldl_max_mem t a

theorem avgOf_mul (l : List ℚ) (h : l ≠ []) :
    avgOf l * (l.length : ℚ) = l.sum := by
  have hl : (l.length : ℚ) ≠ 0 := by
    exact_mod_cast Nat.pos_iff_ne_zero.mp (List.length_pos.mpr h)
  unfold avgOf
  rw [if_neg (by simpa [List.isEmpty_iff] using h)]
  field_simp

/-! ### Substring characterisation of Python `in` -/

theorem strStartsWithL_iff (n : List Char) (h : List Char) :
    strStartsWithL n h = true ↔ ∃ s, h = n ++ s := by
  induction n generalizing h with
  | nil => simp [strStartsWithL]
  | cons c cs ih =>
    cases h with
    | nil => simp [strStartsWithL]
    | cons d ds =>
      rw [strStartsWithL]
      simp only [Bool.and_eq_true, beq_iff_eq, ih, List.cons_append,
        List.cons.injEq]
      constructor
      · rintro ⟨rfl, s, rfl⟩
        exact ⟨s, rfl, rfl⟩
      · rintro ⟨s, rfl, rfl⟩
        exact ⟨rfl, s, rfl⟩

theorem strContainsL_iff (n : List Char) (h : List Char) :
    strContainsL n h = true ↔ ∃ p s, h = p ++ n ++ s := by
  induction h with
  | nil =>
    simp only [strContainsL, List.isEmpty_iff]
    constructor
    · rintro rfl
      exact ⟨[], [], rfl⟩
    · rintro ⟨p, s, hp⟩
      rcases List.append_eq_nil.mp (List.append_eq_nil.mp hp.symm).1 with ⟨-, h2⟩
      exact h2
  | cons d ds ih =>
    rw [strContainsL]
    simp only [Bool.or_eq_true, strStartsWithL_iff, ih]
    constructor
    · rintro (⟨s, hs⟩ | ⟨p, s, hp⟩)
      · exact ⟨[], s, by simpa using hs⟩
      · exact ⟨d :: p, s, by simp [hp]⟩
    · rintro ⟨p, s, hp⟩
      cases p with
      | nil =>
        left
        exact ⟨s, by simpa using hp⟩
      | cons e p =>
        right
        refine ⟨p, s, ?_⟩
        have := (List.cons.injEq ..).mp (by simpa using hp)
        simpa [List.append_assoc] using this.2

/-- Python `needle in hay` holds iff `needle` occurs contiguously in `hay`. -/
theorem strContains_iff (needle hay : String) :
    strContains needle hay = true ↔ IsSubstr needle hay :=
  strContainsL_iff needle.data hay.data


/-! ### Clamping and cropping facts -/

theorem clampBox_bounds (w h : ℕ) (x1 y1 x2 y2 : ℤ) :
    0 ≤ (clampBox w h x1 y1 x2 y2).1 ∧
      (clampBox w h x1 y1 x2 y2).2.2.1 ≤ (w : ℤ) ∧
      0 ≤ (clampBox w h x1 y1 x2 y2).2.1 ∧
      (clampBox w h x1 y1 x2 y2).2.2.2 ≤ (h : ℤ) :=
  ⟨le_max_left 0 x1, min_le_left _ x2, le_max_left 0 y1, min_le_left _ y2⟩

theorem clampBox_chain (w h : ℕ) (x1 y1 x2 y2 : ℤ)
    (hxo : x1 ≤ x2) (hyo : y1 ≤ y2)
    (hxw : x1 ≤ (w : ℤ)) (hx2 : 0 ≤ x2)
    (hyh : y1 ≤ (h : ℤ)) (hy2 : 0 ≤ y2) :
    (clampBox w h x1 y1 x2 y2).1 ≤ (clampBox w h x1 y1 x2 y2).2.2.1 ∧
      (clampBox w h x1 y1 x2 y2).2.1 ≤ (clampBox w h x1 y1 x2 y2).2.2.2 :=
  ⟨le_min (max_le (Int.ofNat_nonneg w) hxw) (max_le hx2 hxo),
   le_min (max_le (Int.ofNat_nonneg h) hyh) (max_le hy2 hyo)⟩

theorem pySliceLen_pos (n : ℕ) (start stop : ℤ) (hs : 0 ≤ start)
    (h0 : 0 ≤ stop) (hn : stop ≤ (n : ℤ)) :
    (0 < pySliceLen n start stop ↔ start < stop) := by
  unfold pySliceLen
  dsimp only
  rw [if_neg (not_lt.mpr hs), if_neg (not_lt.mpr h0), min_eq_left hn]
  omega

theorem cropSize_pos (h w : ℕ) (x1 y1 x2 y2 : ℤ) :
    (0 < cropSize h w x1 y1 x2 y2 ↔
      0 < pySliceLen h y1 y2 ∧ 0 < pySliceLen w x1 x2) := by
  unfold cropSize
  rcases Nat.eq_zero_or_pos (pySliceLen h y1 y2) with hy | hy <;>
    rcases Nat.eq_zero_or_pos (pySliceLen w x1 x2) with hx | hx <;>
    simp [hy, hx]

/-- With nonnegative right/bottom corners, the crop taken by the code is
non-empty exactly when the clamped box has positive width and height. -/
theorem mkDetection_cropped (names : Nat → String) (h w : ℕ) (c : Candidate)
    (hx : 0 ≤ c.x2) (hy : 0 ≤ c.y2) :
    ((mkDetection names h w c).croppedImage ≠ none ↔
      ((mkDetection names h w c).bbox.1 < (mkDetection names h w c).bbox.2.2.1 ∧
        (mkDetection names h w c).bbox.2.1 < (mkDetection names h w c).bbox.2.2.2)) := by
  have hxs : (0 : ℤ) ≤ max 0 c.x1 := le_max_left 0 c.x1
  have hys : (0 : ℤ) ≤ max 0 c.y1 := le_max_left 0 c.y1
  have hx0 : (0 : ℤ) ≤ min (w : ℤ) c.x2 := le_min (Int.ofNat_nonneg w) hx
  have hy0 : (0 : ℤ) ≤ min (h : ℤ) c.y2 := le_min (Int.ofNat_nonneg h) hy
  have hxn : min (w : ℤ) c.x2 ≤ (w : ℤ) := min_le_left _ _
  have hyn : min (h : ℤ) c.y2 ≤ (h : ℤ) := min_le_left _ _
  unfold mkDetection clampBox
  dsimp only
  by_cases hpos : 0 < cropSize h w (max 0 c.x1) (max 0 c.y1)
      (min (w : ℤ) c.x2) (min (h : ℤ) c.y2)
  · rw [if_pos hpos]
    rw [cropSize_pos, pySliceLen_pos h _ _ hys hy0 hyn,
      pySliceLen_pos w _ _ hxs hx0 hxn] at hpos
    simp [hpos.1, hpos.2]
  · rw [if_neg hpos]
    rw [cropSize_pos, pySliceLen_pos h _ _ hys hy0 hyn,
      pySliceLen_pos w _ _ hxs hx0 hxn] at hpos
    simp only [ne_eq, not_true_eq_false, false_iff, not_and]
    intro h1 h2
    exact hpos ⟨h2, h1⟩

/-! ### Origins of returned records -/

/-- Every detection returned by `/detect` comes from a retained candidate. -/
theorem detect_mem_origin (names : Nat → String) (input : DetectInput)
    (r : DetectResponse) (hok : detect names input = .ok r)
    (d : DetectionResult) (hd : d ∈ r.detections) :
    ∃ c ∈ input.dets, detectKeep input.targetClasses names c = true ∧
      d = mkDetection names input.height input.width c := by
  unfold detect at hok
  by_cases h1 : input.hasImage
  · by_cases h2 : input.decodesOk
    · rw [if_neg (by simp [h1]), if_neg (by simp [h2])] at hok
      obtain rfl := (Except.ok.inj hok).symm
      simp only [detectDetections, List.mem_map, List.mem_filter] at hd
      obtain ⟨c, ⟨hc, hk⟩, rfl⟩ := hd
      exact ⟨c, hc, hk, rfl⟩
    · rw [if_neg (by simp [h1]), if_pos (by simp [h2])] at hok
      cases hok
  · rw [if_pos (by simp [h1])] at hok
    cases hok

/-- A retained candidate's record is in the `/detect` output. -/
theorem detect_mem_intro (names : Nat → String) (input : DetectInput)
    (r : DetectResponse) (hok : detect names input = .ok r)
    (c : Candidate) (hc : c ∈ input.dets)
    (hk : detectKeep input.targetClasses names c = true) :
    mkDetection names input.height input.width c ∈ r.detections := by
  unfold detect at hok
  by_cases h1 : input.hasImage
  · by_cases h2 : input.decodesOk
    · rw [if_neg (by simp [h1]), if_neg (by simp [h2])] at hok
      obtain rfl := (Except.ok.inj hok).symm
      simp only [detectDetections, List.mem_map]
      exact ⟨c, List.mem_filter.mpr ⟨hc, hk⟩, rfl⟩
    · rw [if_neg (by simp [h1]), if_pos (by simp [h2])] at hok
      cases hok
  · rw [if_pos (by simp [h1])] at hok
    cases hok

theorem analyze_video_frames_ne (names : Nat → String) (inp : AnalyzeInput)
    (r : AnalyzeResponse) (hok : analyze_video names inp = .ok r) :
    inp.frames ≠ [] := by
  intro hF
  rw [analyze_video_empty names inp hF] at hok
  cases hok

/-- The response record of a successful `/analyze-video` call, in declarative
form. -/
theorem analyze_video_resp (names : Nat → String) (inp : AnalyzeInput)
    (r : AnalyzeResponse) (hok : analyze_video names inp = .ok r) :
    r = { keyframes := (List.insertionSort kfGE
            (preKeyframes names (strLower inp.targetClass) inp.frames)).take 10
          totalFramesAnalyzed := inp.frames.length
          framesWithTarget := ((List.insertionSort kfGE
            (preKeyframes names (strLower inp.targetClass) inp.frames)).take 10).length
          averageConfidence := round2 (avgOf (allConfsOf names (strLower inp.targetClass) inp.frames))
          maxConfidence := round2 (maxOf (allConfsOf names (strLower inp.targetClass) inp.frames))
          targetClass := strLower inp.targetClass
          itemName := inp.itemName
          itemDescription := inp.itemDescription } := by
  rw [analyze_video_eq names inp (analyze_video_frames_ne names inp r hok)] at hok
  exact (Except.ok.inj hok).symm

/-- Every returned keyframe is the keyframe record of some input frame. -/
theorem keyframe_origin (names : Nat → String) (inp : AnalyzeInput)
    (r : AnalyzeResponse) (hok : analyze_video names inp = .ok r)
    (kf : Keyframe) (hkf : kf ∈ r.keyframes) :
    ∃ f ∈ inp.frames, isProcessed f = true ∧
      (qualDets names (strLower inp.targetClass) f) ≠ [] ∧
      kf = keyframeOf names (strLower inp.targetClass) f := by
  obtain rfl := analyze_video_resp names inp r hok
  simp only at hkf
  have h1 : kf ∈ List.insertionSort kfGE
      (preKeyframes names (strLower inp.targetClass) inp.frames) :=
    List.take_subset 10 _ hkf
  have h2 : kf ∈ preKeyframes names (strLower inp.targetClass) inp.frames :=
    (List.mem_insertionSort kfGE).mp h1
  simp only [preKeyframes, List.mem_map, retainedFrames, List.mem_filter,
    Bool.and_eq_true, Bool.not_eq_true', List.isEmpty_eq_false] at h2
  obtain ⟨f, ⟨hf, hp, hq⟩, rfl⟩ := h2
  exact ⟨f, hf, hp, by simpa [List.isEmpty_iff] using hq, rfl⟩

/-- Every detection inside a returned keyframe comes from a retained
candidate of the originating frame. -/
theorem keyframe_det_origin (names : Nat → String) (target : String)
    (f : FrameData) (d : DetectionResult)
    (hd : d ∈ (keyframeOf names target f).detections) :
    ∃ c ∈ f.dets, videoQualifies names target c = true ∧
      d = mkDetection names f.height f.width c := by
  simp only [keyframeOf, qualDets, List.mem_map, List.mem_filter] at hd
  obtain ⟨c, ⟨hc, hq⟩, rfl⟩ := hd
  exact ⟨c, hc, hq, rfl⟩


/-! ### Concrete sample inputs -/

/-- A label table mapping every class id to "bottle". -/
def namesB : Nat → String := fun _ => "bottle"

/-- An in-bounds candidate: confidence 0.55, box (10,10,50,50). -/
def cIn : Candidate := ⟨0, 55/100, 10, 10, 50, 50⟩

/-- A candidate box lying fully to the right of a 100-wide image. -/
def cOut : Candidate := ⟨0, 1/2, 150, 10, 200, 50⟩

/-- A candidate box lying fully above and left of the image. -/
def cNeg : Candidate := ⟨0, 1/2, -50, -50, -10, -10⟩

/-- A candidate at exactly the 0.3 threshold. -/
def c03 : Candidate := ⟨0, 3/10, 10, 10, 50, 50⟩

def dIn : DetectInput := ⟨true, true, 100, 100, [cIn], []⟩

def dOut : DetectInput := ⟨true, true, 100, 100, [cOut], []⟩

def dNeg : DetectInput := ⟨true, true, 100, 100, [cNeg], []⟩

def dIn03 : DetectInput := ⟨true, true, 100, 100, [c03], []⟩

def f03 : FrameData := ⟨"img", 0, true, 100, 100, [c03]⟩

/-- Frame `i` of the 15-frame scenario: one "bottle" candidate at confidence
`(30+i)/100`. -/
def mkFrame15 (i : Nat) : FrameData :=
  ⟨"img", (i : ℚ), true, 100, 100, [⟨0, (30 + i : ℚ)/100, 10, 10, 50, 50⟩]⟩

/-- 15 frames, each with one qualifying "bottle" detection at distinct
confidences 0.31 to 0.45. -/
def inp15 : AnalyzeInput :=
  ⟨(List.range 15).map (fun i => mkFrame15 (i + 1)), "Bottle", "My Bottle", "blue"⟩

def inp1 : AnalyzeInput := ⟨[⟨"img", 1, true, 100, 100, [cIn]⟩], "Bottle", "n", "d"⟩

def inpEmpty : AnalyzeInput := ⟨[], "cup", "", ""⟩

def fallbackA : AnalyzeResponse := ⟨[], 0, 0, 0, 0, "", "", ""⟩

def r1 : AnalyzeResponse :=
  match analyze_video namesB inp1 with
  | .ok r => r
  | .error _ => fallbackA

def r15 : AnalyzeResponse :=
  match analyze_video namesB inp15 with
  | .ok r => r
  | .error _ => fallbackA

def rIn : DetectResponse :=
  match detect namesB dIn with
  | .ok r => r
  | .error _ => ⟨[], 0⟩

def rIn03 : DetectResponse :=
  match detect namesB dIn03 with
  | .ok r => r
  | .error _ => ⟨[], 0⟩


/-- The bounding box of a built detection is exactly the clamped candidate
box. -/
theorem mkDetection_bbox (names : Nat → String) (h w : ℕ) (c : Candidate) :
    (mkDetection names h w c).bbox = clampBox w h c.x1 c.y1 c.x2 c.y2 :=
  rfl

/-! ### Claim theorems -/

/-- C1 counterexample: on 15 frames that each contain a qualifying "bottle"
detection, the pre-truncation qualifying count is 15 and exactly 10 keyframes
are returned, but `framesWithTarget` is 10, not the claimed 15 — `len(keyframes)`
is taken after the `[:10]` truncation. -/
theorem C1_counterexample :
    (preKeyframes namesB (strLower inp15.targetClass) inp15.frames).length = 15 ∧
      (analyze_video namesB inp15).map
        (fun r => (r.keyframes.length, r.framesWithTarget)) = .ok (10, 10) ∧
      (10 : ℕ) ≠ 15 :=
  ⟨by decide, by decide, by decide⟩

/-- C1 (amended): in the `/analyze-video` response, `framesWithTarget` equals
the number of keyframes actually returned, i.e. the minimum of the
pre-truncation qualifying-frame count and 10 — not the pre-truncation count
itself. -/
theorem C1_amended (names : Nat → String) (inp : AnalyzeInput)
    (r : AnalyzeResponse) (hok : analyze_video names inp = .ok r) :
    r.framesWithTarget = r.keyframes.length ∧
      r.framesWithTarget =
        min (preKeyframes names (strLower inp.targetClass) inp.frames).length 10 := by
  obtain rfl := analyze_video_resp names inp r hok
  refine ⟨rfl, ?_⟩
  simp only [List.length_take, List.length_insertionSort]
  exact Nat.min_comm 10 _

set_option maxRecDepth 100000 in
/-- C1 witness: the amended statement evaluated on the 15-frame input. -/
theorem C1_witness :
    r15.framesWithTarget = r15.keyframes.length ∧
      r15.framesWithTarget =
        min (preKeyframes namesB (strLower inp15.targetClass) inp15.frames).length 10 :=
  C1_amended namesB inp15 r15 (by decide)

/-- C7: an `/analyze-video` request with an empty frames list fails with the
validation error "No frames provided" and never yields a success response. -/
theorem C7_empty_frames (names : Nat → String) (inp : AnalyzeInput)
    (h : inp.frames = []) :
    analyze_video names inp = .error "No frames provided" ∧
      ∀ r : AnalyzeResponse, analyze_video names inp ≠ .ok r := by
  refine ⟨analyze_video_empty names inp h, ?_⟩
  intro r hr
  rw [analyze_video_empty names inp h] at hr
  cases hr

/-- C7 witness: the empty-frames input itself. -/
theorem C7_witness :
    analyze_video namesB inpEmpty = .error "No frames provided" ∧
      analyze_video namesB inpEmpty ≠ .ok fallbackA :=
  ⟨(C7_empty_frames namesB inpEmpty rfl).1,
   (C7_empty_frames namesB inpEmpty rfl).2 fallbackA⟩

/-- C10: a successful `/analyze-video` response echoes `targetClass`
lowercase-normalised, while `itemName` and `itemDescription` are echoed
verbatim. -/
theorem C10_echo (names : Nat → String) (inp : AnalyzeInput)
    (r : AnalyzeResponse) (hok : analyze_video names inp = .ok r) :
    r.targetClass = strLower inp.targetClass ∧
      r.itemName = inp.itemName ∧ r.itemDescription = inp.itemDescription := by
  obtain rfl := analyze_video_resp names inp r hok
  exact ⟨rfl, rfl, rfl⟩

set_option maxRecDepth 100000 in
/-- C10 witness: the 15-frame input has `targetClass` "Bottle"; the response
echoes the lowercased form. -/
theorem C10_witness :
    r15.targetClass = strLower inp15.targetClass ∧
      r15.itemName = inp15.itemName ∧ r15.itemDescription = inp15.itemDescription :=
  C10_echo namesB inp15 r15 (by decide)


/-- C3: `averageConfidence` is the rounded arithmetic mean of the unrounded
best confidences of all qualifying frames (0 if none) and `maxConfidence`
their rounded maximum (0 if none); both are computed over every qualifying
frame (`allConfsOf`, one entry per pre-truncation keyframe), not only the 10
returned ones. -/
theorem C3_stats (names : Nat → String) (inp : AnalyzeInput)
    (r : AnalyzeResponse) (hok : analyze_video names inp = .ok r) :
    r.averageConfidence =
        round2 (avgOf (allConfsOf names (strLower inp.targetClass) inp.frames)) ∧
      r.maxConfidence =
        round2 (maxOf (allConfsOf names (strLower inp.targetClass) inp.frames)) ∧
      (allConfsOf names (strLower inp.targetClass) inp.frames).length =
        (preKeyframes names (strLower inp.targetClass) inp.frames).length ∧
      (allConfsOf names (strLower inp.targetClass) inp.frames ≠ [] →
        avgOf (allConfsOf names (strLower inp.targetClass) inp.frames) *
            ((allConfsOf names (strLower inp.targetClass) inp.frames).length : ℚ) =
          (allConfsOf names (strLower inp.targetClass) inp.frames).sum) ∧
      (∀ x ∈ allConfsOf names (strLower inp.targetClass) inp.frames,
        x ≤ maxOf (allConfsOf names (strLower inp.targetClass) inp.frames)) ∧
      (allConfsOf names (strLower inp.targetClass) inp.frames ≠ [] →
        maxOf (allConfsOf names (strLower inp.targetClass) inp.frames) ∈
          allConfsOf names (strLower inp.targetClass) inp.frames) ∧
      (allConfsOf names (strLower inp.targetClass) inp.frames = [] →
        avgOf (allConfsOf names (strLower inp.targetClass) inp.frames) = 0 ∧
          maxOf (allConfsOf names (strLower inp.targetClass) inp.frames) = 0) := by
  obtain rfl := analyze_video_resp names inp r hok
  refine ⟨rfl, rfl, ?_, avgOf_mul _, le_maxOf _, maxOf_mem _, ?_⟩
  · simp [allConfsOf, preKeyframes]
  · intro h
    rw [h]
    exact ⟨rfl, rfl⟩

set_option maxRecDepth 100000 in
/-- C3 witness: the statistics equations evaluated on the 15-frame input. -/
theorem C3_witness :
    r15.averageConfidence =
        round2 (avgOf (allConfsOf namesB (strLower inp15.targetClass) inp15.frames)) ∧
      r15.maxConfidence =
        round2 (maxOf (allConfsOf namesB (strLower inp15.targetClass) inp15.frames)) :=
  ⟨(C3_stats namesB inp15 r15 (by decide)).1,
   (C3_stats namesB inp15 r15 (by decide)).2.1⟩

/-- C4: the returned keyframes list never exceeds 10 entries, and when fewer
than 10 frames qualify every qualifying frame's keyframe is returned. -/
theorem C4_cap (names : Nat → String) (inp : AnalyzeInput)
    (r : AnalyzeResponse) (hok : analyze_video names inp = .ok r) :
    r.keyframes.length ≤ 10 ∧
      ((preKeyframes names (strLower inp.targetClass) inp.frames).length < 10 →
        ∀ kf ∈ preKeyframes names (strLower inp.targetClass) inp.frames,
          kf ∈ r.keyframes) := by
  obtain rfl := analyze_video_resp names inp r hok
  constructor
  · simp only [List.length_take, List.length_insertionSort]
    exact Nat.min_le_left 10 _
  · intro hlen kf hkf
    have hall : (List.insertionSort kfGE
        (preKeyframes names (strLower inp.targetClass) inp.frames)).take 10 =
        List.insertionSort kfGE
          (preKeyframes names (strLower inp.targetClass) inp.frames) := by
      apply List.take_of_length_le
      rw [List.length_insertionSort]
      exact le_of_lt hlen
    simp only [hall]
    exact (List.mem_insertionSort kfGE).mpr hkf

set_option maxRecDepth 100000 in
/-- C4 witness: the cap evaluated on the single-frame input (1 < 10, so the
sole qualifying keyframe is returned). -/
theorem C4_witness :
    r1.keyframes.length ≤ 10 ∧
      ((preKeyframes namesB (strLower inp1.targetClass) inp1.frames).length < 10 →
        ∀ kf ∈ preKeyframes namesB (strLower inp1.targetClass) inp1.frames,
          kf ∈ r1.keyframes) :=
  C4_cap namesB inp1 r1 (by decide)

/-- C5: returned keyframes are in descending order of their (stored, rounded)
confidence, and keyframes of equal confidence keep their original input-frame
order — for every confidence value `c`, the returned keyframes with
confidence `c` form a subsequence of the pre-sort keyframe list (which is in
input order) restricted to confidence `c`. -/
theorem C5_sorted_stable (names : Nat → String) (inp : AnalyzeInput)
    (r : AnalyzeResponse) (hok : analyze_video names inp = .ok r) :
    List.Pairwise (fun a b => b.confidence ≤ a.confidence) r.keyframes ∧
      ∀ c : ℚ,
        (r.keyframes.filter (fun k => k.confidence == c)).Sublist
          ((preKeyframes names (strLower inp.targetClass) inp.frames).filter
            (fun k => k.confidence == c)) := by
  obtain rfl := analyze_video_resp names inp r hok
  constructor
  · have hs : List.Pairwise kfGE (List.insertionSort kfGE
        (preKeyframes names (strLower inp.targetClass) inp.frames)) :=
      List.sorted_insertionSort kfGE _
    exact List.Pairwise.sublist (List.take_sublist 10 _) hs
  · intro c
    have h1 : ((List.insertionSort kfGE
        (preKeyframes names (strLower inp.targetClass) inp.frames)).take 10).filter
          (fun k => k.confidence == c) |>.Sublist
        ((List.insertionSort kfGE
          (preKeyframes names (strLower inp.targetClass) inp.frames)).filter
            (fun k => k.confidence == c)) :=
      (List.take_sublist 10 _).filter _
    rw [filter_insertionSort c] at h1
    exact h1

set_option maxRecDepth 100000 in
/-- C5 witness: order and stability instantiated on the 15-frame input (at
confidence value 0.45). -/
theorem C5_witness :
    List.Pairwise (fun a b => b.confidence ≤ a.confidence) r15.keyframes ∧
      (r15.keyframes.filter (fun k => k.confidence == round2 (45/100))).Sublist
        ((preKeyframes namesB (strLower inp15.targetClass) inp15.frames).filter
          (fun k => k.confidence == round2 (45/100))) :=
  ⟨(C5_sorted_stable namesB inp15 r15 (by decide)).1,
   (C5_sorted_stable namesB inp15 r15 (by decide)).2 (round2 (45/100))⟩

/-- C2 counterexample: a candidate box (150,10,200,50) fully to the right of
a 100-by-100 image is returned by `/detect` with bbox (150,10,100,50), whose
x1 = 150 exceeds both x2 = 100 and the image width — the claimed chain
0 ≤ x1 ≤ x2 ≤ width fails. -/
theorem C2_counterexample :
    (detect namesB dOut).map (fun r => r.detections.map DetectionResult.bbox) =
        .ok [(150, 10, 100, 50)] ∧
      ¬((150 : ℤ) ≤ 100) :=
  ⟨by decide, by decide⟩

/-- C2 (amended): every returned bounding box satisfies 0 ≤ x1, x2 ≤ width,
0 ≤ y1 and y2 ≤ height unconditionally; the full chain 0 ≤ x1 ≤ x2 ≤ width
and 0 ≤ y1 ≤ y2 ≤ height additionally holds whenever the model's candidate
box is ordered and intersects the image region, but can fail (x1 > x2 or
y1 > y2, x1 > width or y1 > height) for a candidate box lying fully outside
the image. -/
theorem C2_amended :
    (∀ (names : Nat → String) (input : DetectInput) (r : DetectResponse),
        detect names input = .ok r → ∀ d ∈ r.detections,
          0 ≤ d.bbox.1 ∧ d.bbox.2.2.1 ≤ (input.width : ℤ) ∧
            0 ≤ d.bbox.2.1 ∧ d.bbox.2.2.2 ≤ (input.height : ℤ)) ∧
      (∀ (names : Nat → String) (inp : AnalyzeInput) (r : AnalyzeResponse),
        analyze_video names inp = .ok r → ∀ kf ∈ r.keyframes, ∀ d ∈ kf.detections,
          ∃ f ∈ inp.frames,
            0 ≤ d.bbox.1 ∧ d.bbox.2.2.1 ≤ (f.width : ℤ) ∧
              0 ≤ d.bbox.2.1 ∧ d.bbox.2.2.2 ≤ (f.height : ℤ)) ∧
      (∀ (names : Nat → String) (h w : ℕ) (c : Candidate),
        c.x1 ≤ c.x2 → c.y1 ≤ c.y2 → c.x1 ≤ (w : ℤ) → 0 ≤ c.x2 →
          c.y1 ≤ (h : ℤ) → 0 ≤ c.y2 →
          0 ≤ (mkDetection names h w c).bbox.1 ∧
            (mkDetection names h w c).bbox.1 ≤ (mkDetection names h w c).bbox.2.2.1 ∧
            (mkDetection names h w c).bbox.2.2.1 ≤ (w : ℤ) ∧
            0 ≤ (mkDetection names h w c).bbox.2.1 ∧
            (mkDetection names h w c).bbox.2.1 ≤ (mkDetection names h w c).bbox.2.2.2 ∧
            (mkDetection names h w c).bbox.2.2.2 ≤ (h : ℤ)) := by
  refine ⟨?_, ?_, ?_⟩
  · intro names input r hok d hd
    obtain ⟨c, -, -, rfl⟩ := detect_mem_origin names input r hok d hd
    rw [mkDetection_bbox]
    exact clampBox_bounds input.width input.height c.x1 c.y1 c.x2 c.y2
  · intro names inp r hok kf hkf d hd
    obtain ⟨f, hf, -, -, rfl⟩ := keyframe_origin names inp r hok kf hkf
    obtain ⟨c, -, -, rfl⟩ := keyframe_det_origin names (strLower inp.targetClass) f d hd
    refine ⟨f, hf, ?_⟩
    rw [mkDetection_bbox]
    exact clampBox_bounds f.width f.height c.x1 c.y1 c.x2 c.y2
  · intro names h w c hxo hyo hxw hx2 hyh hy2
    rw [mkDetection_bbox]
    obtain ⟨p1, p2, p3, p4⟩ := clampBox_bounds w h c.x1 c.y1 c.x2 c.y2
    obtain ⟨q1, q2⟩ := clampBox_chain w h c.x1 c.y1 c.x2 c.y2 hxo hyo hxw hx2 hyh hy2
    exact ⟨p1, q1, p2, p3, q2, p4⟩

/-- C2 witness: the chain instantiated at an in-bounds candidate box, and the
unconditional bounds at a concrete `/detect` response. -/
theorem C2_witness :
    (0 ≤ (mkDetection namesB 100 100 cIn).bbox.1 ∧
        (mkDetection namesB 100 100 cIn).bbox.1 ≤ (mkDetection namesB 100 100 cIn).bbox.2.2.1 ∧
        (mkDetection namesB 100 100 cIn).bbox.2.2.1 ≤ (100 : ℤ) ∧
        0 ≤ (mkDetection namesB 100 100 cIn).bbox.2.1 ∧
        (mkDetection namesB 100 100 cIn).bbox.2.1 ≤ (mkDetection namesB 100 100 cIn).bbox.2.2.2 ∧
        (mkDetection namesB 100 100 cIn).bbox.2.2.2 ≤ (100 : ℤ)) ∧
      (0 ≤ (mkDetection namesB 100 100 cIn).bbox.1 ∧
        (mkDetection namesB 100 100 cIn).bbox.2.2.1 ≤ (dIn.width : ℤ) ∧
        0 ≤ (mkDetection namesB 100 100 cIn).bbox.2.1 ∧
        (mkDetection namesB 100 100 cIn).bbox.2.2.2 ≤ (dIn.height : ℤ)) :=
  ⟨C2_amended.2.2 namesB 100 100 cIn (by decide) (by decide) (by decide)
      (by decide) (by decide) (by decide),
   C2_amended.1 namesB dIn rIn (by decide) (mkDetection namesB 100 100 cIn) (by decide)⟩

/-- C9 counterexample: candidate box (-50,-50,-10,-10) in a 100-by-100 image
clamps to bbox (0,0,-10,-10), a region of non-positive width and height, yet
`croppedImage` is present: the Python slice `frame[0:-10, 0:-10]` interprets
the negative stops from the end of the axes and is non-empty, so the claimed
"present iff nonzero area" equivalence fails. -/
theorem C9_counterexample :
    (detect namesB dNeg).map
        (fun r => r.detections.map (fun d => (d.bbox, d.croppedImage))) =
        .ok [((0, 0, -10, -10), some ())] ∧
      ((-10 : ℤ) - 0 ≤ 0 ∧ (-10 : ℤ) - 0 ≤ 0) :=
  ⟨by decide, by decide⟩

/-- C9 (amended): every detection returned by either endpoint is built by
`mkDetection`, and whenever the candidate's right and bottom coordinates are
nonnegative, `croppedImage` is present iff the clamped box has positive width
and height; a candidate with a negative x2 or y2 can instead produce a
spurious non-empty crop through Python's negative-index slice semantics. -/
theorem C9_amended :
    (∀ (names : Nat → String) (input : DetectInput) (r : DetectResponse),
        detect names input = .ok r → ∀ d ∈ r.detections,
          ∃ c ∈ input.dets, d = mkDetection names input.height input.width c) ∧
      (∀ (names : Nat → String) (inp : AnalyzeInput) (r : AnalyzeResponse),
        analyze_video names inp = .ok r → ∀ kf ∈ r.keyframes, ∀ d ∈ kf.detections,
          ∃ f ∈ inp.frames, ∃ c ∈ f.dets, d = mkDetection names f.height f.width c) ∧
      (∀ (names : Nat → String) (h w : ℕ) (c : Candidate),
        0 ≤ c.x2 → 0 ≤ c.y2 →
          ((mkDetection names h w c).croppedImage ≠ none ↔
            (mkDetection names h w c).bbox.1 < (mkDetection names h w c).bbox.2.2.1 ∧
              (mkDetection names h w c).bbox.2.1 < (mkDetection names h w c).bbox.2.2.2)) := by
  refine ⟨?_, ?_, mkDetection_cropped⟩
  · intro names input r hok d hd
    obtain ⟨c, hc, -, rfl⟩ := detect_mem_origin names input r hok d hd
    exact ⟨c, hc, rfl⟩
  · intro names inp r hok kf hkf d hd
    obtain ⟨f, hf, -, -, rfl⟩ := keyframe_origin names inp r hok kf hkf
    obtain ⟨c, hc, -, rfl⟩ := keyframe_det_origin names (strLower inp.targetClass) f d hd
    exact ⟨f, hf, c, hc, rfl⟩

/-- C9 witness: the crop-presence equivalence at the in-bounds candidate
(crop present, positive width and height). -/
theorem C9_witness :
    ((mkDetection namesB 100 100 cIn).croppedImage ≠ none ↔
        (mkDetection namesB 100 100 cIn).bbox.1 < (mkDetection namesB 100 100 cIn).bbox.2.2.1 ∧
          (mkDetection namesB 100 100 cIn).bbox.2.1 < (mkDetection namesB 100 100 cIn).bbox.2.2.2) :=
  C9_amended.2.2 namesB 100 100 cIn (by decide) (by decide)

/-- C6: a detection appears in either endpoint's output only if its unrounded
confidence is at least 0.3 (the stored confidence being the rounded value of
the unrounded one used for the comparison), and a candidate at exactly 0.3
that passes the class filter is retained. -/
theorem C6_threshold :
    (∀ (names : Nat → String) (input : DetectInput) (r : DetectResponse),
        detect names input = .ok r → ∀ d ∈ r.detections,
          ∃ c ∈ input.dets, 3/10 ≤ c.conf ∧
            d = mkDetection names input.height input.width c ∧
            d.confidence = round2 c.conf) ∧
      (∀ (names : Nat → String) (input : DetectInput) (r : DetectResponse),
        detect names input = .ok r → ∀ c ∈ input.dets,
          (input.targetClasses = [] ∨ names c.clsId ∈ input.targetClasses) →
          c.conf = 3/10 →
            mkDetection names input.height input.width c ∈ r.detections) ∧
      (∀ (names : Nat → String) (inp : AnalyzeInput) (r : AnalyzeResponse),
        analyze_video names inp = .ok r → ∀ kf ∈ r.keyframes, ∀ d ∈ kf.detections,
          ∃ f ∈ inp.frames, ∃ c ∈ f.dets, 3/10 ≤ c.conf ∧
            d = mkDetection names f.height f.width c ∧
            d.confidence = round2 c.conf) ∧
      (∀ (names : Nat → String) (target : String) (f : FrameData) (c : Candidate),
        c ∈ f.dets → skipByClass target (strLower (names c.clsId)) = false →
        c.conf = 3/10 →
          mkDetection names f.height f.width c ∈ (keyframeOf names target f).detections) := by
  refine ⟨?_, ?_, ?_, ?_⟩
  · intro names input r hok d hd
    obtain ⟨c, hc, hk, rfl⟩ := detect_mem_origin names input r hok d hd
    refine ⟨c, hc, ?_, rfl, rfl⟩
    unfold detectKeep at hk
    rw [Bool.and_eq_true] at hk
    have h2 := hk.2
    rw [Bool.not_eq_true'] at h2
    exact not_lt.mp (of_decide_eq_false h2)
  · intro names input r hok c hc hclass hconf
    apply detect_mem_intro names input r hok c hc
    unfold detectKeep
    rw [hconf]
    rcases hclass with h | hmem
    · rw [h]
      simp
    · have hcont : input.targetClasses.contains (names c.clsId) = true := by
        simpa using hmem
      simp [hcont]
      exact Or.inr hmem
  · intro names inp r hok kf hkf d hd
    obtain ⟨f, hf, -, -, rfl⟩ := keyframe_origin names inp r hok kf hkf
    obtain ⟨c, hc, hq, rfl⟩ := keyframe_det_origin names (strLower inp.targetClass) f d hd
    refine ⟨f, hf, c, hc, ?_, rfl, rfl⟩
    unfold videoQualifies at hq
    rw [Bool.and_eq_true] at hq
    have h2 := hq.2
    rw [Bool.not_eq_true'] at h2
    exact not_lt.mp (of_decide_eq_false h2)
  · intro names target f c hc hskip hconf
    have hq : videoQualifies names target c = true := by
      unfold videoQualifies
      rw [hskip, hconf]
      decide
    simp only [keyframeOf]
    exact List.mem_map.mpr ⟨c, List.mem_filter.mpr ⟨hc, hq⟩, rfl⟩

set_option maxRecDepth 100000 in
/-- C6 witness: the threshold-boundary candidate (confidence exactly 0.3) is
retained by both the video per-frame filter and the `/detect` endpoint. -/
theorem C6_witness :
    mkDetection namesB 100 100 c03 ∈ (keyframeOf namesB "bottle" f03).detections ∧
      mkDetection namesB 100 100 c03 ∈ rIn03.detections :=
  ⟨C6_threshold.2.2.2 namesB "bottle" f03 c03 (by decide) (by decide) (by decide),
   C6_threshold.2.1 namesB dIn03 rIn03 (by decide) c03 (by decide)
     (Or.inl (by decide)) (by decide)⟩

/-- C8: the video endpoint's class filter retains a candidate iff it is not
skipped by the class match and meets the threshold, and the class match
succeeds exactly when the (lowercased) target is empty, or is a substring of
the (lowercased) class name, or vice versa. -/
theorem C8_class_match :
    (∀ (names : Nat → String) (target : String) (c : Candidate),
        videoQualifies names target c = true ↔
          (skipByClass target (strLower (names c.clsId)) = false ∧
            3/10 ≤ c.conf)) ∧
      (∀ target cls : String,
        skipByClass target cls = false ↔
          (target = "" ∨ IsSubstr target cls ∨ IsSubstr cls target)) := by
  constructor
  · intro names target c
    unfold videoQualifies
    rw [Bool.and_eq_true, Bool.not_eq_true', Bool.not_eq_true']
    constructor
    · rintro ⟨h1, h2⟩
      exact ⟨h1, not_lt.mp (of_decide_eq_false h2)⟩
    · rintro ⟨h1, h2⟩
      exact ⟨h1, decide_eq_false (not_lt.mpr h2)⟩
  · intro target cls
    unfold skipByClass
    cases hb1 : target.isEmpty <;> cases hb2 : strContains target cls <;>
      cases hb3 : strContains cls target <;>
      simp_all [← String.isEmpty_iff, ← strContains_iff]

end ReclaimAI
